import Mathlib

/-
  Verification of the StreamPay escrow subscription engine.

  The repository's source corpus contains the client scripts and the
  documentation of the engine; the engine itself (the Rust Stylus contract,
  contracts/src/lib.rs) is not part of the corpus.  The engine is therefore
  modelled from the specification as a shallow embedding: a state type with
  explicit totals, and one executable function per mutating entry point.
-/

namespace StreamPay

/-- Modelled from the spec: the five subscription statuses of the missing
contract's SubscriptionStatus enum (Active=0, PastDue=1, CancelledByUser=2,
CancelledByProvider=3, Expired=4). -/
inductive SubscriptionStatus where
  | Active
  | PastDue
  | CancelledByUser
  | CancelledByProvider
  | Expired
deriving Repr, DecidableEq

/-- Modelled from the spec: a status is terminal when it is one of the
cancellation or expiry states; terminal states have no outgoing transitions. -/
def isTerminal : SubscriptionStatus → Bool
  | .CancelledByUser => true
  | .CancelledByProvider => true
  | .Expired => true
  | _ => false

/-- Modelled from the spec: the error taxonomy of the missing contract. -/
inductive EscrowError where
  | ValidationError
  | NotFound
  | Unauthorized
  | InvalidState
  | InsufficientFunds
  | ArithmeticError
  | ReentrancyDetected
deriving Repr, DecidableEq

/-- Modelled from the spec: the subscription record of the missing contract
(the tuple returned by getSubscription, plus the grace-period start recorded
when a subscription enters PastDue). -/
structure Subscription where
  user : Nat
  provider : Nat
  amountPerInterval : Nat
  intervalSeconds : Nat
  durationIntervals : Nat
  balance : Nat
  paidIntervals : Nat
  nextPaymentTs : Nat
  status : SubscriptionStatus
  createdAt : Nat
  gracePeriodStart : Nat
deriving Repr, DecidableEq

/-- Modelled from the spec: the engine's storage — the subscription registry
(association list keyed by id), the allocation counter, the per-provider
accumulated balances, the accrued protocol fees, the running totals of money
received and paid out (for auditing conservation), the process-wide
reentrancy lock and the configured grace-period length. -/
structure EngineState where
  subs : List (Nat × Subscription)
  subscriptionCount : Nat
  providerBalances : List (Nat × Nat)
  protocolAccrued : Nat
  totalIn : Nat
  totalOut : Nat
  locked : Bool
  graceDuration : Nat
deriving Repr, DecidableEq

/-- Modelled from the spec: the freshly initialized engine with no
subscriptions and no balances, configured with a grace-period length. -/
def initState (g : Nat) : EngineState :=
  { subs := [], subscriptionCount := 0, providerBalances := [],
    protocolAccrued := 0, totalIn := 0, totalOut := 0,
    locked := false, graceDuration := g }

/-- Modelled from the spec: the configured minimum interval (60 seconds). -/
def MIN_INTERVAL : Nat := 60

/-- Modelled from the spec: the fixed protocol fee, 2.5% of each release,
computed in integer arithmetic on the smallest monetary unit. -/
def protocolFee (amt : Nat) : Nat := amt * 25 / 1000

/-- First-match lookup of a subscription by id in the registry. -/
def findSub : List (Nat × Subscription) → Nat → Option Subscription
  | [], _ => none
  | (k, v) :: t, id => if k = id then some v else findSub t id

/-- Replace the first registry entry with the given id by applying f. -/
def updateFirst : List (Nat × Subscription) → Nat → (Subscription → Subscription) → List (Nat × Subscription)
  | [], _, _ => []
  | (k, v) :: t, id, f => if k = id then (k, f v) :: t else (k, v) :: updateFirst t id f

/-- Sum of all escrowed subscription balances. -/
def sumBal : List (Nat × Subscription) → Nat
  | [] => 0
  | (_, v) :: t => v.balance + sumBal t

/-- Sum of all accumulated provider balances. -/
def sumProv : List (Nat × Nat) → Nat
  | [] => 0
  | (_, b) :: t => b + sumProv t

/-- First-match lookup of a provider's accumulated balance (0 if absent). -/
def provBal : List (Nat × Nat) → Nat → Nat
  | [], _ => 0
  | (q, b) :: t, p => if q = p then b else provBal t p

/-- Credit a provider's accumulated balance, creating the entry on first
credit. -/
def creditProv : List (Nat × Nat) → Nat → Nat → List (Nat × Nat)
  | [], p, a => [(p, a)]
  | (q, b) :: t, p, a => if q = p then (q, b + a) :: t else (q, b) :: creditProv t p a

/-- Zero a provider's accumulated balance. -/
def zeroProv : List (Nat × Nat) → Nat → List (Nat × Nat)
  | [], _ => []
  | (q, b) :: t, p => if q = p then (q, 0) :: t else (q, b) :: zeroProv t p

/-- Modelled from the spec: the lazy grace-period expiry check of the missing
contract — if the subscription is PastDue and the grace period has elapsed,
force the transition to CancelledByProvider and refund the remaining balance
to the user, before any triggering call is processed. -/
def applyLazyExpiry (now id : Nat) (s : EngineState) : EngineState :=
  match findSub s.subs id with
  | none => s
  | some sub =>
      if sub.status = .PastDue ∧ sub.gracePeriodStart + s.graceDuration ≤ now then
        { s with
          subs := updateFirst s.subs id
            (fun sb => { sb with status := .CancelledByProvider, balance := 0 }),
          totalOut := s.totalOut + sub.balance }
      else s

/-- Modelled from the spec: subscription creation in the missing contract —
validation of the parameters, allocation of the next sequential id, storage
of the new Active record with the deposit escrowed, and the running total of
received funds increased by the deposit. -/
def createSubscriptionRaw (user provider amt interval duration deposit now : Nat)
    (s : EngineState) : Except EscrowError (Nat × EngineState) :=
  if user = provider ∨ amt = 0 ∨ interval < MIN_INTERVAL ∨ deposit < amt then
    .error .ValidationError
  else
    let id := s.subscriptionCount + 1
    let sub : Subscription :=
      { user := user, provider := provider, amountPerInterval := amt,
        intervalSeconds := interval, durationIntervals := duration,
        balance := deposit, paidIntervals := 0, nextPaymentTs := now + interval,
        status := .Active, createdAt := now, gracePeriodStart := 0 }
    .ok (id, { s with
               subs := s.subs ++ [(id, sub)],
               subscriptionCount := id,
               totalIn := s.totalIn + deposit })

/-- Modelled from the spec: the body of top-up, after the lazy expiry
pre-pass — NotFound on unknown id, InvalidState on a terminal subscription,
credit of the balance, and reactivation from PastDue when the new balance
covers one interval, with no other side effect. -/
def topUpAfterExpiry (id amount : Nat) (t : EngineState) : Except EscrowError EngineState :=
  match findSub t.subs id with
  | none => .error .NotFound
  | some sub =>
      if isTerminal sub.status then .error .InvalidState
      else if amount = 0 then .error .ValidationError
      else
        .ok { t with
              subs := updateFirst t.subs id
                (fun sb =>
                  { sb with
                    balance := sb.balance + amount,
                    status :=
                      if sub.status = .PastDue ∧ sub.amountPerInterval ≤ sub.balance + amount then
                        SubscriptionStatus.Active
                      else sub.status }),
              totalIn := t.totalIn + amount }

/-- Modelled from the spec: top-up in the missing contract — the lazy
grace-period expiry check runs first, then the top-up body. -/
def topUpRaw (id amount now : Nat) (s : EngineState) : Except EscrowError EngineState :=
  topUpAfterExpiry id amount (applyLazyExpiry now id s)

/-- Modelled from the spec: the body of payment release, after the lazy
expiry pre-pass — NotFound on unknown id, InvalidState when not Active, a
no-op success when not yet due, transition to PastDue (grace clock started,
no funds moved) when the balance cannot cover one interval, and otherwise
the atomic paying step: debit amountPerInterval, split into protocol fee
and provider share, credit the provider accumulator, accrue the fee,
increment paidIntervals, advance nextPaymentTs by exactly intervalSeconds,
and expire the subscription when the finite duration cap is reached. -/
def releaseAfterExpiry (id now : Nat) (t : EngineState) : Except EscrowError EngineState :=
  match findSub t.subs id with
  | none => .error .NotFound
  | some sub =>
      if sub.status = .Active then
        if now < sub.nextPaymentTs then .ok t
        else if sub.balance < sub.amountPerInterval then
          .ok { t with
                subs := updateFirst t.subs id
                  (fun sb => { sb with status := .PastDue, gracePeriodStart := now }) }
        else
          .ok { t with
                subs := updateFirst t.subs id
                  (fun sb => { sb with
                               balance := sb.balance - sub.amountPerInterval,
                               paidIntervals := sb.paidIntervals + 1,
                               nextPaymentTs := sb.nextPaymentTs + sb.intervalSeconds,
                               status :=
                                 if sub.durationIntervals ≠ 0 ∧
                                     sub.paidIntervals + 1 = sub.durationIntervals then
                                   SubscriptionStatus.Expired
                                 else SubscriptionStatus.Active }),
                providerBalances := creditProv t.providerBalances sub.provider
                  (sub.amountPerInterval - protocolFee sub.amountPerInterval),
                protocolAccrued := t.protocolAccrued + protocolFee sub.amountPerInterval }
      else .error .InvalidState

/-- Modelled from the spec: payment release in the missing contract — the
lazy grace-period expiry check runs first, then the release body. -/
def releasePaymentRaw (id now : Nat) (s : EngineState) : Except EscrowError EngineState :=
  releaseAfterExpiry id now (applyLazyExpiry now id s)

/-- Modelled from the spec: the body of cancellation, after the lazy expiry
pre-pass — NotFound on unknown id, InvalidState on a terminal subscription,
Unauthorized for a caller who is neither the user nor the provider, and
otherwise the refund of the whole remaining balance to the user together
with the transition to the canceller's terminal state. -/
def cancelAfterExpiry (id caller : Nat) (t : EngineState) : Except EscrowError EngineState :=
  match findSub t.subs id with
  | none => .error .NotFound
  | some sub =>
      if isTerminal sub.status then .error .InvalidState
      else if caller ≠ sub.user ∧ caller ≠ sub.provider then .error .Unauthorized
      else
        .ok { t with
              subs := updateFirst t.subs id
                (fun sb =>
                  { sb with
                    balance := 0,
                    status :=
                      if caller = sub.user then SubscriptionStatus.CancelledByUser
                      else SubscriptionStatus.CancelledByProvider }),
              totalOut := t.totalOut + sub.balance }

/-- Modelled from the spec: cancellation in the missing contract — the lazy
grace-period expiry check runs first, then the cancellation body. -/
def cancelSubscriptionRaw (id caller now : Nat) (s : EngineState) : Except EscrowError EngineState :=
  cancelAfterExpiry id caller (applyLazyExpiry now id s)

/-- Modelled from the spec: the external value transfer attempted by a
provider withdrawal.  The transfer mechanism is outside the engine, so its
acceptance is an oracle boolean; on acceptance the paid-out total grows by
the transferred amount, on rejection the withdrawal fails with
InsufficientFunds. -/
def attemptTransfer (transferOk : Bool) (amount : Nat) (s : EngineState) :
    Except EscrowError EngineState :=
  if transferOk then .ok { s with totalOut := s.totalOut + amount }
  else .error .InsufficientFunds

/-- Modelled from the spec: provider withdrawal in the missing contract —
read the accumulated balance, succeed as a no-op when it is zero, otherwise
zero it first and only then attempt the external transfer of that amount. -/
def withdrawProviderFundsRaw (p : Nat) (transferOk : Bool) (s : EngineState) :
    Except EscrowError EngineState :=
  if provBal s.providerBalances p = 0 then .ok s
  else attemptTransfer transferOk (provBal s.providerBalances p)
    { s with providerBalances := zeroProv s.providerBalances p }

/-- Modelled from the spec: the explicit maintenance entry point that
evaluates the lazy grace-period expiry on demand. -/
def expireRaw (id now : Nat) (s : EngineState) : Except EscrowError EngineState :=
  .ok (applyLazyExpiry now id s)

/-- Modelled from the spec: the reentrancy guard wrapped around every
state-mutating entry point — a call made while the process-wide lock is held
fails with ReentrancyDetected and mutates nothing; otherwise the lock is
held for the duration of the body and released on exit. -/
def withLock (f : EngineState → Except EscrowError EngineState) (s : EngineState) :
    Except EscrowError EngineState :=
  if s.locked then .error .ReentrancyDetected
  else
    match f { s with locked := true } with
    | .ok s1 => .ok { s1 with locked := false }
    | .error e => .error e

/-- Modelled from the spec: the guarded createSubscription entry point. -/
def createSubscription (user provider amt interval duration deposit now : Nat)
    (s : EngineState) : Except EscrowError (Nat × EngineState) :=
  if s.locked then .error .ReentrancyDetected
  else
    match createSubscriptionRaw user provider amt interval duration deposit now
            { s with locked := true } with
    | .ok (i, s1) => .ok (i, { s1 with locked := false })
    | .error e => .error e

/-- Modelled from the spec: the guarded topUp entry point. -/
def topUp (id amount now : Nat) (s : EngineState) : Except EscrowError EngineState :=
  withLock (topUpRaw id amount now) s

/-- Modelled from the spec: the guarded releasePayment entry point. -/
def releasePayment (id now : Nat) (s : EngineState) : Except EscrowError EngineState :=
  withLock (releasePaymentRaw id now) s

/-- Modelled from the spec: the guarded cancelSubscription entry point. -/
def cancelSubscription (id caller now : Nat) (s : EngineState) : Except EscrowError EngineState :=
  withLock (cancelSubscriptionRaw id caller now) s

/-- Modelled from the spec: the guarded withdrawProviderFunds entry point. -/
def withdrawProviderFunds (p : Nat) (transferOk : Bool) (s : EngineState) :
    Except EscrowError EngineState :=
  withLock (withdrawProviderFundsRaw p transferOk) s

/-- Modelled from the spec: the guarded maintenance entry point for lazy
grace-period expiry. -/
def expireGrace (id now : Nat) (s : EngineState) : Except EscrowError EngineState :=
  withLock (expireRaw id now) s

/-- The engine's mutating operations, as invoked from outside. -/
inductive Op where
  | create (user provider amt interval duration deposit now : Nat)
  | topUp (id amount now : Nat)
  | release (id now : Nat)
  | cancel (id caller now : Nat)
  | withdraw (p : Nat) (transferOk : Bool)
  | expire (id now : Nat)
deriving Repr, DecidableEq

/-- Run one mutating entry point, keeping only the resulting state. -/
def runOp : Op → EngineState → Except EscrowError EngineState
  | .create u p a i d dep now, s =>
      match createSubscription u p a i d dep now s with
      | .ok (_, s1) => .ok s1
      | .error e => .error e
  | .topUp id amt now, s => topUp id amt now s
  | .release id now, s => releasePayment id now s
  | .cancel id c now, s => cancelSubscription id c now s
  | .withdraw p tok, s => withdrawProviderFunds p tok s
  | .expire id now, s => expireGrace id now s

/-- Every operation is all-or-nothing: a failed call leaves the state as it
was. -/
def applyOp (op : Op) (s : EngineState) : EngineState :=
  match runOp op s with
  | .ok s1 => s1
  | .error _ => s

/-- Apply a finite sequence of operations, first operation first. -/
def applyOps (ops : List Op) (s : EngineState) : EngineState :=
  ops.foldl (fun st op => applyOp op st) s

/-- The fund-conservation account: escrowed balances plus provider balances
plus accrued protocol fees plus everything already paid out equals
everything ever received. -/
def conserved (s : EngineState) : Prop :=
  sumBal s.subs + sumProv s.providerBalances + s.protocolAccrued + s.totalOut = s.totalIn

/-! ### Registry and accumulator lemmas -/

theorem findSub_updateFirst_self (l : List (Nat × Subscription)) (id : Nat)
    (f : Subscription → Subscription) :
    findSub (updateFirst l id f) id = (findSub l id).map f := by
  induction l with
  | nil => simp [findSub, updateFirst]
  | cons hd t ih =>
      obtain ⟨k, v⟩ := hd
      by_cases hk : k = id
      · simp [findSub, updateFirst, hk]
      · simp [findSub, updateFirst, hk, ih]

theorem findSub_updateFirst_ne (l : List (Nat × Subscription)) (id j : Nat)
    (f : Subscription → Subscription) (h : j ≠ id) :
    findSub (updateFirst l id f) j = findSub l j := by
  induction l with
  | nil => simp [findSub, updateFirst]
  | cons hd t ih =>
      obtain ⟨k, v⟩ := hd
      by_cases hk : k = id
      · subst hk
        simp [findSub, updateFirst, Ne.symm h]
      · by_cases hj : k = j
        · subst hj
          simp [findSub, updateFirst, h]
        · simp [findSub, updateFirst, hk, hj, ih]

theorem findSub_updateFirst_isSome (l : List (Nat × Subscription)) (id j : Nat)
    (f : Subscription → Subscription) :
    (findSub (updateFirst l id f) j).isSome = (findSub l j).isSome := by
  by_cases hj : j = id
  · subst hj
    rw [findSub_updateFirst_self]
    cases findSub l j <;> simp
  · rw [findSub_updateFirst_ne l id j f hj]

theorem sumBal_updateFirst (l : List (Nat × Subscription)) (id : Nat)
    (f : Subscription → Subscription) (v : Subscription) (h : findSub l id = some v) :
    sumBal (updateFirst l id f) + v.balance = sumBal l + (f v).balance := by
  induction l with
  | nil => simp [findSub] at h
  | cons hd t ih =>
      obtain ⟨k, w⟩ := hd
      by_cases hk : k = id
      · simp only [findSub, hk, if_pos rfl] at h
        cases h
        simp [updateFirst, hk, sumBal]
        omega
      · simp only [findSub, hk, if_neg hk] at h
        simp only [updateFirst, if_neg hk, sumBal]
        have := ih h
        omega

theorem findSub_append_single (l : List (Nat × Subscription)) (k : Nat)
    (v : Subscription) (j : Nat) :
    findSub (l ++ [(k, v)]) j =
      match findSub l j with
      | some w => some w
      | none => if k = j then some v else none := by
  induction l with
  | nil => simp [findSub]
  | cons hd t ih =>
      obtain ⟨q, w⟩ := hd
      by_cases hq : q = j
      · simp [findSub, hq]
      · simp [findSub, hq, ih]

theorem sumBal_append_single (l : List (Nat × Subscription)) (k : Nat) (v : Subscription) :
    sumBal (l ++ [(k, v)]) = sumBal l + v.balance := by
  induction l with
  | nil => simp [sumBal]
  | cons hd t ih =>
      obtain ⟨q, w⟩ := hd
      simp [sumBal, ih]
      omega

theorem sumProv_creditProv (l : List (Nat × Nat)) (p a : Nat) :
    sumProv (creditProv l p a) = sumProv l + a := by
  induction l with
  | nil => simp [creditProv, sumProv]
  | cons hd t ih =>
      obtain ⟨q, b⟩ := hd
      by_cases hq : q = p
      · simp [creditProv, hq, sumProv]
        omega
      · simp [creditProv, hq, sumProv, ih]
        omega

theorem provBal_creditProv_self (l : List (Nat × Nat)) (p a : Nat) :
    provBal (creditProv l p a) p = provBal l p + a := by
  induction l with
  | nil => simp [creditProv, provBal]
  | cons hd t ih =>
      obtain ⟨q, b⟩ := hd
      by_cases hq : q = p
      · simp [creditProv, hq, provBal]
      · simp [creditProv, hq, provBal, ih]

theorem provBal_zeroProv_self (l : List (Nat × Nat)) (p : Nat) :
    provBal (zeroProv l p) p = 0 := by
  induction l with
  | nil => simp [zeroProv, provBal]
  | cons hd t ih =>
      obtain ⟨q, b⟩ := hd
      by_cases hq : q = p
      · simp [zeroProv, hq, provBal]
      · simp [zeroProv, hq, provBal, ih]

theorem sumProv_zeroProv (l : List (Nat × Nat)) (p : Nat) :
    sumProv (zeroProv l p) + provBal l p = sumProv l := by
  induction l with
  | nil => simp [zeroProv, provBal, sumProv]
  | cons hd t ih =>
      obtain ⟨q, b⟩ := hd
      by_cases hq : q = p
      · simp [zeroProv, hq, provBal, sumProv]
        omega
      · simp [zeroProv, hq, provBal, sumProv]
        omega

theorem protocolFee_le (a : Nat) : protocolFee a ≤ a := by
  unfold protocolFee
  have h : a * 25 ≤ a * 1000 := Nat.mul_le_mul_left a (by omega)
  calc a * 25 / 1000 ≤ a * 1000 / 1000 := Nat.div_le_div_right h
    _ = a := Nat.mul_div_cancel a (by omega)

/-! ### The reentrancy guard -/

theorem withLock_locked (f : EngineState → Except EscrowError EngineState)
    (s : EngineState) (h : s.locked = true) :
    withLock f s = .error .ReentrancyDetected := by
  unfold withLock
  rw [if_pos h]

theorem withLock_ok (f : EngineState → Except EscrowError EngineState)
    (s s1 : EngineState) (h : withLock f s = .ok s1) :
    ∃ t, f { s with locked := true } = .ok t ∧ s1 = { t with locked := false } := by
  unfold withLock at h
  split at h
  · cases h
  · cases hf : f { s with locked := true } with
    | ok t =>
        rw [hf] at h
        simp only [Except.ok.injEq] at h
        exact ⟨t, rfl, h.symm⟩
    | error e =>
        rw [hf] at h
        cases h

theorem createSubscription_ok (u p a i d dep now : Nat) (s : EngineState)
    (idr : Nat) (s1 : EngineState)
    (h : createSubscription u p a i d dep now s = .ok (idr, s1)) :
    ∃ t, createSubscriptionRaw u p a i d dep now { s with locked := true } = .ok (idr, t) ∧
      s1 = { t with locked := false } := by
  unfold createSubscription at h
  split at h
  · cases h
  · cases hf : createSubscriptionRaw u p a i d dep now { s with locked := true } with
    | ok pr =>
        obtain ⟨j, t⟩ := pr
        rw [hf] at h
        simp only [Except.ok.injEq, Prod.mk.injEq] at h
        obtain ⟨hj, hs⟩ := h
        subst hj
        exact ⟨t, rfl, hs.symm⟩
    | error e =>
        rw [hf] at h
        cases h

/-! ### Conservation preservation -/

theorem conserved_applyLazyExpiry (now id : Nat) (s : EngineState) (h : conserved s) :
    conserved (applyLazyExpiry now id s) := by
  unfold applyLazyExpiry
  split
  · exact h
  next sub hf =>
    split
    next hc =>
      have hb : sumBal (updateFirst s.subs id
          (fun sb => { sb with status := .CancelledByProvider, balance := 0 })) +
          sub.balance = sumBal s.subs + 0 :=
        sumBal_updateFirst s.subs id _ sub hf
      unfold conserved at h ⊢
      dsimp only
      omega
    next hc => exact h

theorem conserved_createRaw (u p a i d dep now : Nat) (s : EngineState) (idr : Nat)
    (s1 : EngineState) (hr : createSubscriptionRaw u p a i d dep now s = .ok (idr, s1))
    (h : conserved s) : conserved s1 := by
  unfold createSubscriptionRaw at hr
  split at hr
  · cases hr
  · simp only [Except.ok.injEq, Prod.mk.injEq] at hr
    obtain ⟨-, hst⟩ := hr
    subst hst
    have hb : sumBal (s.subs ++ [(s.subscriptionCount + 1,
        { user := u, provider := p, amountPerInterval := a, intervalSeconds := i,
          durationIntervals := d, balance := dep, paidIntervals := 0,
          nextPaymentTs := now + i, status := .Active, createdAt := now,
          gracePeriodStart := 0 })]) = sumBal s.subs + dep :=
      sumBal_append_single s.subs (s.subscriptionCount + 1) _
    unfold conserved at h ⊢
    dsimp only
    omega

theorem conserved_topUpAfterExpiry (id amount : Nat) (t s1 : EngineState)
    (hr : topUpAfterExpiry id amount t = .ok s1) (h : conserved t) : conserved s1 := by
  unfold topUpAfterExpiry at hr
  split at hr
  · cases hr
  next sub hf =>
    split at hr
    · cases hr
    · split at hr
      · cases hr
      · simp only [Except.ok.injEq] at hr
        subst hr
        have hb : sumBal (updateFirst t.subs id
            (fun sb =>
              { sb with
                balance := sb.balance + amount,
                status :=
                  if sub.status = .PastDue ∧ sub.amountPerInterval ≤ sub.balance + amount then
                    SubscriptionStatus.Active
                  else sub.status })) + sub.balance
            = sumBal t.subs + (sub.balance + amount) :=
          sumBal_updateFirst t.subs id _ sub hf
        unfold conserved at h ⊢
        dsimp only
        omega

theorem conserved_releaseAfterExpiry (id now : Nat) (t s1 : EngineState)
    (hr : releaseAfterExpiry id now t = .ok s1) (h : conserved t) : conserved s1 := by
  unfold releaseAfterExpiry at hr
  split at hr
  · cases hr
  next sub hf =>
    split at hr
    · split at hr
      · simp only [Except.ok.injEq] at hr
        subst hr
        exact h
      · split at hr
        · simp only [Except.ok.injEq] at hr
          subst hr
          have hb : sumBal (updateFirst t.subs id
              (fun sb => { sb with status := .PastDue, gracePeriodStart := now })) +
              sub.balance = sumBal t.subs + sub.balance :=
            sumBal_updateFirst t.subs id _ sub hf
          unfold conserved at h ⊢
          dsimp only
          omega
        · simp only [Except.ok.injEq] at hr
          subst hr
          have hb : sumBal (updateFirst t.subs id
              (fun sb => { sb with
                           balance := sb.balance - sub.amountPerInterval,
                           paidIntervals := sb.paidIntervals + 1,
                           nextPaymentTs := sb.nextPaymentTs + sb.intervalSeconds,
                           status :=
                             if sub.durationIntervals ≠ 0 ∧
                                 sub.paidIntervals + 1 = sub.durationIntervals then
                               SubscriptionStatus.Expired
                             else SubscriptionStatus.Active })) + sub.balance
              = sumBal t.subs + (sub.balance - sub.amountPerInterval) :=
            sumBal_updateFirst t.subs id _ sub hf
          have hp : sumProv (creditProv t.providerBalances sub.provider
              (sub.amountPerInterval - protocolFee sub.amountPerInterval))
              = sumProv t.providerBalances +
                (sub.amountPerInterval - protocolFee sub.amountPerInterval) :=
            sumProv_creditProv _ _ _
          have hfee := protocolFee_le sub.amountPerInterval
          unfold conserved at h ⊢
          dsimp only
          omega
    · cases hr

theorem conserved_cancelAfterExpiry (id caller : Nat) (t s1 : EngineState)
    (hr : cancelAfterExpiry id caller t = .ok s1) (h : conserved t) : conserved s1 := by
  unfold cancelAfterExpiry at hr
  split at hr
  · cases hr
  next sub hf =>
    split at hr
    · cases hr
    · split at hr
      · cases hr
      · simp only [Except.ok.injEq] at hr
        subst hr
        have hb : sumBal (updateFirst t.subs id
            (fun sb =>
              { sb with
                balance := 0,
                status :=
                  if caller = sub.user then SubscriptionStatus.CancelledByUser
                  else SubscriptionStatus.CancelledByProvider })) + sub.balance
            = sumBal t.subs + 0 :=
          sumBal_updateFirst t.subs id _ sub hf
        unfold conserved at h ⊢
        dsimp only
        omega

theorem conserved_withdrawRaw (p : Nat) (tok : Bool) (s s1 : EngineState)
    (hr : withdrawProviderFundsRaw p tok s = .ok s1) (h : conserved s) : conserved s1 := by
  unfold withdrawProviderFundsRaw attemptTransfer at hr
  by_cases hz : provBal s.providerBalances p = 0
  · rw [if_pos hz] at hr
    simp only [Except.ok.injEq] at hr
    subst hr
    exact h
  · rw [if_neg hz] at hr
    cases tok with
    | false =>
        rw [if_neg (by simp)] at hr
        cases hr
    | true =>
        rw [if_pos rfl] at hr
        simp only [Except.ok.injEq] at hr
        subst hr
        have hsum := sumProv_zeroProv s.providerBalances p
        unfold conserved at h ⊢
        dsimp only
        omega

theorem conserved_applyOp (op : Op) (s : EngineState) (h : conserved s) :
    conserved (applyOp op s) := by
  unfold applyOp
  cases hrun : runOp op s with
  | error e => exact h
  | ok s1 =>
      cases op with
      | create u p a i d dep now =>
          cases hc : createSubscription u p a i d dep now s with
          | error e =>
              simp only [runOp, hc] at hrun
              cases hrun
          | ok pr =>
              obtain ⟨j, t2⟩ := pr
              simp only [runOp, hc, Except.ok.injEq] at hrun
              subst hrun
              obtain ⟨t, hraw, hs1⟩ := createSubscription_ok u p a i d dep now s j _ hc
              subst hs1
              exact conserved_createRaw u p a i d dep now _ _ t hraw h
      | topUp id amount now =>
          have hrun2 : withLock (topUpRaw id amount now) s = .ok s1 := hrun
          obtain ⟨t, hft, hs1⟩ := withLock_ok _ s s1 hrun2
          subst hs1
          exact conserved_topUpAfterExpiry id amount _ t hft
            (conserved_applyLazyExpiry now id _ h)
      | release id now =>
          have hrun2 : withLock (releasePaymentRaw id now) s = .ok s1 := hrun
          obtain ⟨t, hft, hs1⟩ := withLock_ok _ s s1 hrun2
          subst hs1
          exact conserved_releaseAfterExpiry id now _ t hft
            (conserved_applyLazyExpiry now id _ h)
      | cancel id caller now =>
          have hrun2 : withLock (cancelSubscriptionRaw id caller now) s = .ok s1 := hrun
          obtain ⟨t, hft, hs1⟩ := withLock_ok _ s s1 hrun2
          subst hs1
          exact conserved_cancelAfterExpiry id caller _ t hft
            (conserved_applyLazyExpiry now id _ h)
      | withdraw p tok =>
          have hrun2 : withLock (withdrawProviderFundsRaw p tok) s = .ok s1 := hrun
          obtain ⟨t, hft, hs1⟩ := withLock_ok _ s s1 hrun2
          subst hs1
          exact conserved_withdrawRaw p tok _ t hft h
      | expire id now =>
          have hrun2 : withLock (expireRaw id now) s = .ok s1 := hrun
          obtain ⟨t, hft, hs1⟩ := withLock_ok _ s s1 hrun2
          subst hs1
          unfold expireRaw at hft
          simp only [Except.ok.injEq] at hft
          rw [← hft]
          exact conserved_applyLazyExpiry now id _ h

theorem conserved_applyOps (ops : List Op) (s : EngineState) (h : conserved s) :
    conserved (applyOps ops s) := by
  induction ops generalizing s with
  | nil => exact h
  | cons op rest ih => exact ih (applyOp op s) (conserved_applyOp op s h)

theorem conserved_init (g : Nat) : conserved (initState g) := rfl

/-! ### Generic preservation of invariants along operations -/

theorem applyOp_preserves (P : EngineState → Prop)
    (hlock : ∀ s b, P s → P { s with locked := b })
    (hcr : ∀ u p a i d dep now s idr s1,
      createSubscriptionRaw u p a i d dep now s = .ok (idr, s1) → P s → P s1)
    (htu : ∀ id amount t s1, topUpAfterExpiry id amount t = .ok s1 → P t → P s1)
    (hre : ∀ id now t s1, releaseAfterExpiry id now t = .ok s1 → P t → P s1)
    (hca : ∀ id caller t s1, cancelAfterExpiry id caller t = .ok s1 → P t → P s1)
    (hwd : ∀ p tok s s1, withdrawProviderFundsRaw p tok s = .ok s1 → P s → P s1)
    (hex : ∀ now id s, P s → P (applyLazyExpiry now id s))
    (op : Op) (s : EngineState) (h : P s) : P (applyOp op s) := by
  unfold applyOp
  cases hrun : runOp op s with
  | error e => exact h
  | ok s1 =>
      cases op with
      | create u p a i d dep now =>
          cases hc : createSubscription u p a i d dep now s with
          | error e =>
              simp only [runOp, hc] at hrun
              cases hrun
          | ok pr =>
              obtain ⟨j, t2⟩ := pr
              simp only [runOp, hc, Except.ok.injEq] at hrun
              subst hrun
              obtain ⟨t, hraw, hs1⟩ := createSubscription_ok u p a i d dep now s j _ hc
              subst hs1
              exact hlock t false (hcr u p a i d dep now _ j t hraw (hlock s true h))
      | topUp id amount now =>
          have hrun2 : withLock (topUpRaw id amount now) s = .ok s1 := hrun
          obtain ⟨t, hft, hs1⟩ := withLock_ok _ s s1 hrun2
          subst hs1
          exact hlock t false
            (htu id amount _ t hft (hex now id _ (hlock s true h)))
      | release id now =>
          have hrun2 : withLock (releasePaymentRaw id now) s = .ok s1 := hrun
          obtain ⟨t, hft, hs1⟩ := withLock_ok _ s s1 hrun2
          subst hs1
          exact hlock t false
            (hre id now _ t hft (hex now id _ (hlock s true h)))
      | cancel id caller now =>
          have hrun2 : withLock (cancelSubscriptionRaw id caller now) s = .ok s1 := hrun
          obtain ⟨t, hft, hs1⟩ := withLock_ok _ s s1 hrun2
          subst hs1
          exact hlock t false
            (hca id caller _ t hft (hex now id _ (hlock s true h)))
      | withdraw p tok =>
          have hrun2 : withLock (withdrawProviderFundsRaw p tok) s = .ok s1 := hrun
          obtain ⟨t, hft, hs1⟩ := withLock_ok _ s s1 hrun2
          subst hs1
          exact hlock t false (hwd p tok _ t hft (hlock s true h))
      | expire id now =>
          have hrun2 : withLock (expireRaw id now) s = .ok s1 := hrun
          obtain ⟨t, hft, hs1⟩ := withLock_ok _ s s1 hrun2
          subst hs1
          unfold expireRaw at hft
          simp only [Except.ok.injEq] at hft
          rw [← hft]
          exact hlock _ false (hex now id _ (hlock s true h))

theorem applyOps_preserves (P : EngineState → Prop)
    (hstep : ∀ op s, P s → P (applyOp op s))
    (ops : List Op) (s : EngineState) (h : P s) : P (applyOps ops s) := by
  induction ops generalizing s with
  | nil => exact h
  | cons op rest ih => exact ih (applyOp op s) (hstep op s h)

/-! ### The per-subscription inductive invariant -/

/-- The fixed-schedule and duration-cap invariant of a single record:
nextPaymentTs sits exactly (paidIntervals + 1) intervals after creation; a
finite duration caps paidIntervals and forces Expired exactly when the cap
is reached; an indefinite subscription is never Expired. -/
def SubInv (sub : Subscription) : Prop :=
  sub.nextPaymentTs = sub.createdAt + (sub.paidIntervals + 1) * sub.intervalSeconds ∧
  (sub.durationIntervals ≠ 0 →
    sub.paidIntervals ≤ sub.durationIntervals ∧
    (sub.paidIntervals = sub.durationIntervals → sub.status = .Expired)) ∧
  (sub.durationIntervals = 0 → sub.status ≠ .Expired)

/-- Every registered subscription satisfies the record invariant. -/
def AllSubsInv (s : EngineState) : Prop :=
  ∀ id sub, findSub s.subs id = some sub → SubInv sub

theorem findSub_updateFirst_cases (l : List (Nat × Subscription)) (id j : Nat)
    (f : Subscription → Subscription) (w : Subscription)
    (h : findSub (updateFirst l id f) j = some w) :
    (j ≠ id ∧ findSub l j = some w) ∨ (j = id ∧ ∃ v, findSub l id = some v ∧ w = f v) := by
  by_cases hj : j = id
  · subst hj
    rw [findSub_updateFirst_self] at h
    cases hv : findSub l j with
    | none => rw [hv] at h; cases h
    | some v =>
        rw [hv] at h
        simp only [Option.map_some', Option.some.injEq] at h
        exact Or.inr ⟨rfl, v, rfl, h.symm⟩
  · rw [findSub_updateFirst_ne l id j f hj] at h
    exact Or.inl ⟨hj, h⟩

theorem allSubsInv_updateFirst (l : List (Nat × Subscription)) (id : Nat)
    (f : Subscription → Subscription)
    (h : ∀ j w, findSub l j = some w → SubInv w)
    (hf : ∀ v, findSub l id = some v → SubInv (f v)) :
    ∀ j w, findSub (updateFirst l id f) j = some w → SubInv w := by
  intro j w hw
  rcases findSub_updateFirst_cases l id j f w hw with ⟨-, hj⟩ | ⟨-, v, hv, hwv⟩
  · exact h j w hj
  · subst hwv
    exact hf v hv

theorem findSub_append_of_found (l : List (Nat × Subscription)) (e : Nat × Subscription)
    (j : Nat) (v : Subscription) (h : findSub l j = some v) :
    findSub (l ++ [e]) j = some v := by
  induction l with
  | nil => cases h
  | cons hd t ih =>
      obtain ⟨q, w⟩ := hd
      by_cases hq : q = j
      · simp only [findSub, if_pos hq] at h ⊢
        exact h
      · simp only [findSub, if_neg hq] at h ⊢
        exact ih h

theorem findSub_append_of_none (l : List (Nat × Subscription)) (k : Nat)
    (vv : Subscription) (j : Nat) (h : findSub l j = none) :
    findSub (l ++ [(k, vv)]) j = if k = j then some vv else none := by
  induction l with
  | nil => simp [findSub]
  | cons hd t ih =>
      obtain ⟨q, w⟩ := hd
      by_cases hq : q = j
      · simp only [findSub, if_pos hq] at h
        cases h
      · simp only [findSub, if_neg hq] at h ⊢
        exact ih h

theorem allSubsInv_applyLazyExpiry (now id : Nat) (s : EngineState)
    (h : AllSubsInv s) : AllSubsInv (applyLazyExpiry now id s) := by
  unfold applyLazyExpiry
  split
  · exact h
  next sub hf =>
    split
    next hc =>
      intro j w hw
      dsimp only at hw
      refine allSubsInv_updateFirst s.subs id _ h ?_ j w hw
      intro v hv
      rw [hf] at hv
      injection hv with he
      subst he
      obtain ⟨hsch, hdur, hind⟩ := h id sub hf
      refine ⟨hsch, ?_, ?_⟩
      · intro hd
        obtain ⟨hle, hexp⟩ := hdur hd
        refine ⟨hle, fun heq => ?_⟩
        have hst := hexp heq
        rw [hc.1] at hst
        exact SubscriptionStatus.noConfusion hst
      · intro hd
        exact fun hcon => SubscriptionStatus.noConfusion hcon
    next hc => exact h

theorem allSubsInv_createRaw (u p a i d dep now : Nat) (s : EngineState) (idr : Nat)
    (s1 : EngineState) (hr : createSubscriptionRaw u p a i d dep now s = .ok (idr, s1))
    (h : AllSubsInv s) : AllSubsInv s1 := by
  unfold createSubscriptionRaw at hr
  split at hr
  · cases hr
  · simp only [Except.ok.injEq, Prod.mk.injEq] at hr
    obtain ⟨-, hst⟩ := hr
    subst hst
    intro j w hw
    dsimp only at hw
    cases hfj : findSub s.subs j with
    | some v =>
        rw [findSub_append_of_found s.subs _ j v hfj] at hw
        injection hw with he
        subst he
        exact h j v hfj
    | none =>
        rw [findSub_append_of_none s.subs (s.subscriptionCount + 1) _ j hfj] at hw
        by_cases hkj : s.subscriptionCount + 1 = j
        · rw [if_pos hkj] at hw
          injection hw with he
          subst he
          refine ⟨by dsimp only; omega, ?_, ?_⟩
          · intro hd
            refine ⟨by dsimp only; omega, fun heq => ?_⟩
            exact absurd heq.symm hd
          · intro hd
            exact fun hcon => SubscriptionStatus.noConfusion hcon
        · rw [if_neg hkj] at hw
          cases hw

theorem allSubsInv_topUpAfterExpiry (id amount : Nat) (t s1 : EngineState)
    (hr : topUpAfterExpiry id amount t = .ok s1) (h : AllSubsInv t) : AllSubsInv s1 := by
  unfold topUpAfterExpiry at hr
  split at hr
  · cases hr
  next sub hf =>
    split at hr
    · cases hr
    next hterm =>
      split at hr
      · cases hr
      · simp only [Except.ok.injEq] at hr
        subst hr
        intro j w hw
        dsimp only at hw
        refine allSubsInv_updateFirst t.subs id _ h ?_ j w hw
        intro v hv
        rw [hf] at hv
        injection hv with he
        subst he
        obtain ⟨hsch, hdur, hind⟩ := h id sub hf
        refine ⟨hsch, ?_, ?_⟩
        · intro hd
          obtain ⟨hle, hexp⟩ := hdur hd
          refine ⟨hle, fun heq => ?_⟩
          have hst := hexp heq
          dsimp only
          split
          next hpd =>
            rw [hpd.1] at hst
            exact SubscriptionStatus.noConfusion hst
          next hpd => exact hst
        · intro hd
          have hne := hind hd
          dsimp only
          split
          · exact fun hcon => SubscriptionStatus.noConfusion hcon
          · exact hne

theorem allSubsInv_releaseAfterExpiry (id now : Nat) (t s1 : EngineState)
    (hr : releaseAfterExpiry id now t = .ok s1) (h : AllSubsInv t) : AllSubsInv s1 := by
  unfold releaseAfterExpiry at hr
  split at hr
  · cases hr
  next sub hf =>
    split at hr
    next hact =>
      split at hr
      · simp only [Except.ok.injEq] at hr
        subst hr
        exact h
      · split at hr
        · simp only [Except.ok.injEq] at hr
          subst hr
          intro j w hw
          dsimp only at hw
          refine allSubsInv_updateFirst t.subs id _ h ?_ j w hw
          intro v hv
          rw [hf] at hv
          injection hv with he
          subst he
          obtain ⟨hsch, hdur, hind⟩ := h id sub hf
          refine ⟨hsch, ?_, ?_⟩
          · intro hd
            obtain ⟨hle, hexp⟩ := hdur hd
            refine ⟨hle, fun heq => ?_⟩
            have hst := hexp heq
            rw [hact] at hst
            exact SubscriptionStatus.noConfusion hst
          · intro hd
            exact fun hcon => SubscriptionStatus.noConfusion hcon
        · simp only [Except.ok.injEq] at hr
          subst hr
          intro j w hw
          dsimp only at hw
          refine allSubsInv_updateFirst t.subs id _ h ?_ j w hw
          intro v hv
          rw [hf] at hv
          injection hv with he
          subst he
          obtain ⟨hsch, hdur, hind⟩ := h id sub hf
          have hlt : sub.durationIntervals ≠ 0 →
              sub.paidIntervals < sub.durationIntervals := by
            intro hd
            obtain ⟨hle, hexp⟩ := hdur hd
            rcases Nat.lt_or_ge sub.paidIntervals sub.durationIntervals with hlt | hge
            · exact hlt
            · have heq : sub.paidIntervals = sub.durationIntervals := by omega
              have hst := hexp heq
              rw [hact] at hst
              exact absurd hst (fun hcon => SubscriptionStatus.noConfusion hcon)
          refine ⟨by dsimp only; rw [hsch]; ring, ?_, ?_⟩
          · intro hd
            have hplt := hlt hd
            refine ⟨by dsimp only; omega, ?_⟩
            intro heq
            dsimp only at heq ⊢
            rw [if_pos ⟨hd, heq⟩]
          · intro hd
            dsimp only at hd ⊢
            rw [if_neg (fun hcon => hcon.1 hd)]
            exact fun hcon => SubscriptionStatus.noConfusion hcon
    next hact => cases hr

theorem allSubsInv_cancelAfterExpiry (id caller : Nat) (t s1 : EngineState)
    (hr : cancelAfterExpiry id caller t = .ok s1) (h : AllSubsInv t) : AllSubsInv s1 := by
  unfold cancelAfterExpiry at hr
  split at hr
  · cases hr
  next sub hf =>
    split at hr
    next hterm => cases hr
    next hterm =>
      split at hr
      · cases hr
      · simp only [Except.ok.injEq] at hr
        subst hr
        intro j w hw
        dsimp only at hw
        refine allSubsInv_updateFirst t.subs id _ h ?_ j w hw
        intro v hv
        rw [hf] at hv
        injection hv with he
        subst he
        obtain ⟨hsch, hdur, hind⟩ := h id sub hf
        refine ⟨hsch, ?_, ?_⟩
        · intro hd
          obtain ⟨hle, hexp⟩ := hdur hd
          refine ⟨hle, fun heq => ?_⟩
          have hst := hexp heq
          rw [hst] at hterm
          exact absurd rfl hterm
        · intro hd
          dsimp only
          split <;> exact fun hcon => SubscriptionStatus.noConfusion hcon

theorem allSubsInv_withdrawRaw (p : Nat) (tok : Bool) (s s1 : EngineState)
    (hr : withdrawProviderFundsRaw p tok s = .ok s1) (h : AllSubsInv s) : AllSubsInv s1 := by
  unfold withdrawProviderFundsRaw attemptTransfer at hr
  by_cases hz : provBal s.providerBalances p = 0
  · rw [if_pos hz] at hr
    simp only [Except.ok.injEq] at hr
    subst hr
    exact h
  · rw [if_neg hz] at hr
    cases tok with
    | false =>
        rw [if_neg (by simp)] at hr
        cases hr
    | true =>
        rw [if_pos rfl] at hr
        simp only [Except.ok.injEq] at hr
        subst hr
        exact h

theorem allSubsInv_applyOp (op : Op) (s : EngineState) (h : AllSubsInv s) :
    AllSubsInv (applyOp op s) :=
  applyOp_preserves AllSubsInv (fun _ _ hs => hs)
    allSubsInv_createRaw allSubsInv_topUpAfterExpiry allSubsInv_releaseAfterExpiry
    allSubsInv_cancelAfterExpiry allSubsInv_withdrawRaw allSubsInv_applyLazyExpiry op s h

theorem allSubsInv_applyOps (ops : List Op) (s : EngineState) (h : AllSubsInv s) :
    AllSubsInv (applyOps ops s) :=
  applyOps_preserves AllSubsInv allSubsInv_applyOp ops s h

theorem allSubsInv_init (g : Nat) : AllSubsInv (initState g) := by
  intro id sub hf
  cases hf

/-! ### Consecutive id allocation -/

/-- The registry holds exactly the ids 1 through subscriptionCount. -/
def KeyInv (s : EngineState) : Prop :=
  ∀ i, (findSub s.subs i).isSome = true ↔ (1 ≤ i ∧ i ≤ s.subscriptionCount)

theorem keyInv_of_same_keys (s s1 : EngineState)
    (hsubs : ∀ i, (findSub s1.subs i).isSome = (findSub s.subs i).isSome)
    (hcount : s1.subscriptionCount = s.subscriptionCount)
    (h : KeyInv s) : KeyInv s1 := by
  intro i
  rw [hsubs i, hcount]
  exact h i

theorem keyInv_applyLazyExpiry (now id : Nat) (s : EngineState)
    (h : KeyInv s) : KeyInv (applyLazyExpiry now id s) := by
  unfold applyLazyExpiry
  split
  · exact h
  next sub hf =>
    split
    next hc =>
      refine keyInv_of_same_keys s _ ?_ rfl h
      intro i
      exact findSub_updateFirst_isSome s.subs id i _
    next hc => exact h

theorem keyInv_createRaw (u p a i d dep now : Nat) (s : EngineState) (idr : Nat)
    (s1 : EngineState) (hr : createSubscriptionRaw u p a i d dep now s = .ok (idr, s1))
    (h : KeyInv s) : KeyInv s1 := by
  unfold createSubscriptionRaw at hr
  split at hr
  · cases hr
  · simp only [Except.ok.injEq, Prod.mk.injEq] at hr
    obtain ⟨-, hst⟩ := hr
    subst hst
    intro j
    dsimp only
    cases hfj : findSub s.subs j with
    | some v =>
        rw [findSub_append_of_found s.subs _ j v hfj]
        have := (h j).mp (by rw [hfj]; rfl)
        simp only [Option.isSome_some, true_iff]
        omega
    | none =>
        rw [findSub_append_of_none s.subs (s.subscriptionCount + 1) _ j hfj]
        by_cases hkj : s.subscriptionCount + 1 = j
        · rw [if_pos hkj]
          simp only [Option.isSome_some, true_iff]
          omega
        · rw [if_neg hkj]
          simp only [Option.isSome_none, Bool.false_eq_true, false_iff]
          intro hcon
          have hj := (h j).mpr (by omega)
          rw [hfj] at hj
          cases hj

theorem keyInv_topUpAfterExpiry (id amount : Nat) (t s1 : EngineState)
    (hr : topUpAfterExpiry id amount t = .ok s1) (h : KeyInv t) : KeyInv s1 := by
  unfold topUpAfterExpiry at hr
  split at hr
  · cases hr
  next sub hf =>
    split at hr
    · cases hr
    · split at hr
      · cases hr
      · simp only [Except.ok.injEq] at hr
        subst hr
        exact keyInv_of_same_keys t _ (fun i => findSub_updateFirst_isSome t.subs id i _) rfl h

theorem keyInv_releaseAfterExpiry (id now : Nat) (t s1 : EngineState)
    (hr : releaseAfterExpiry id now t = .ok s1) (h : KeyInv t) : KeyInv s1 := by
  unfold releaseAfterExpiry at hr
  split at hr
  · cases hr
  next sub hf =>
    split at hr
    next hact =>
      split at hr
      · simp only [Except.ok.injEq] at hr
        subst hr
        exact h
      · split at hr
        · simp only [Except.ok.injEq] at hr
          subst hr
          exact keyInv_of_same_keys t _ (fun i => findSub_updateFirst_isSome t.subs id i _) rfl h
        · simp only [Except.ok.injEq] at hr
          subst hr
          exact keyInv_of_same_keys t _ (fun i => findSub_updateFirst_isSome t.subs id i _) rfl h
    next hact => cases hr

theorem keyInv_cancelAfterExpiry (id caller : Nat) (t s1 : EngineState)
    (hr : cancelAfterExpiry id caller t = .ok s1) (h : KeyInv t) : KeyInv s1 := by
  unfold cancelAfterExpiry at hr
  split at hr
  · cases hr
  next sub hf =>
    split at hr
    · cases hr
    · split at hr
      · cases hr
      · simp only [Except.ok.injEq] at hr
        subst hr
        exact keyInv_of_same_keys t _ (fun i => findSub_updateFirst_isSome t.subs id i _) rfl h

theorem keyInv_withdrawRaw (p : Nat) (tok : Bool) (s s1 : EngineState)
    (hr : withdrawProviderFundsRaw p tok s = .ok s1) (h : KeyInv s) : KeyInv s1 := by
  unfold withdrawProviderFundsRaw attemptTransfer at hr
  by_cases hz : provBal s.providerBalances p = 0
  · rw [if_pos hz] at hr
    simp only [Except.ok.injEq] at hr
    subst hr
    exact h
  · rw [if_neg hz] at hr
    cases tok with
    | false =>
        rw [if_neg (by simp)] at hr
        cases hr
    | true =>
        rw [if_pos rfl] at hr
        simp only [Except.ok.injEq] at hr
        subst hr
        exact h

theorem keyInv_applyOp (op : Op) (s : EngineState) (h : KeyInv s) :
    KeyInv (applyOp op s) :=
  applyOp_preserves KeyInv (fun _ _ hs => hs)
    keyInv_createRaw keyInv_topUpAfterExpiry keyInv_releaseAfterExpiry
    keyInv_cancelAfterExpiry keyInv_withdrawRaw keyInv_applyLazyExpiry op s h

theorem keyInv_applyOps (ops : List Op) (s : EngineState) (h : KeyInv s) :
    KeyInv (applyOps ops s) :=
  applyOps_preserves KeyInv keyInv_applyOp ops s h

theorem keyInv_init (g : Nat) : KeyInv (initState g) := by
  intro i
  constructor
  · intro hcon
    cases hcon
  · intro hcon
    have h1 : 1 ≤ i := hcon.1
    have h0 : i ≤ 0 := hcon.2
    exact absurd h1 (by omega)

/-! ### Terminal subscriptions are frozen -/

theorem terminal_ne_pastDue (st : SubscriptionStatus) (h : isTerminal st = true) :
    st ≠ SubscriptionStatus.PastDue := by
  cases st <;> first
    | exact fun hc => SubscriptionStatus.noConfusion hc
    | cases h

theorem terminal_ne_active (st : SubscriptionStatus) (h : isTerminal st = true) :
    st ≠ SubscriptionStatus.Active := by
  cases st <;> first
    | exact fun hc => SubscriptionStatus.noConfusion hc
    | cases h

theorem applyLazyExpiry_of_terminal (now id : Nat) (s : EngineState) (sub : Subscription)
    (hf : findSub s.subs id = some sub) (hterm : isTerminal sub.status = true) :
    applyLazyExpiry now id s = s := by
  unfold applyLazyExpiry
  rw [hf]
  exact if_neg (fun hc => terminal_ne_pastDue sub.status hterm hc.1)

theorem frozen_applyLazyExpiry (id0 : Nat) (sub0 : Subscription)
    (hterm : isTerminal sub0.status = true) (now id : Nat) (s : EngineState)
    (h : findSub s.subs id0 = some sub0) :
    findSub (applyLazyExpiry now id s).subs id0 = some sub0 := by
  unfold applyLazyExpiry
  split
  · exact h
  next sub hf =>
    split
    next hc =>
      dsimp only
      by_cases hid : id0 = id
      · subst hid
        rw [h] at hf
        injection hf with he
        subst he
        exact absurd hc.1 (terminal_ne_pastDue sub0.status hterm)
      · rw [findSub_updateFirst_ne s.subs id id0 _ hid]
        exact h
    next hc => exact h

theorem frozen_createRaw (id0 : Nat) (sub0 : Subscription)
    (u p a i d dep now : Nat) (s : EngineState) (idr : Nat) (s1 : EngineState)
    (hr : createSubscriptionRaw u p a i d dep now s = .ok (idr, s1))
    (h : findSub s.subs id0 = some sub0) : findSub s1.subs id0 = some sub0 := by
  unfold createSubscriptionRaw at hr
  split at hr
  · cases hr
  · simp only [Except.ok.injEq, Prod.mk.injEq] at hr
    obtain ⟨-, hst⟩ := hr
    subst hst
    exact findSub_append_of_found s.subs _ id0 sub0 h

theorem frozen_topUpAfterExpiry (id0 : Nat) (sub0 : Subscription)
    (hterm : isTerminal sub0.status = true) (id amount : Nat) (t s1 : EngineState)
    (hr : topUpAfterExpiry id amount t = .ok s1)
    (h : findSub t.subs id0 = some sub0) : findSub s1.subs id0 = some sub0 := by
  unfold topUpAfterExpiry at hr
  split at hr
  · cases hr
  next sub hf =>
    split at hr
    · cases hr
    next hnt =>
      split at hr
      · cases hr
      · simp only [Except.ok.injEq] at hr
        subst hr
        dsimp only
        by_cases hid : id0 = id
        · subst hid
          rw [h] at hf
          injection hf with he
          subst he
          exact absurd hterm hnt
        · rw [findSub_updateFirst_ne t.subs id id0 _ hid]
          exact h

theorem frozen_releaseAfterExpiry (id0 : Nat) (sub0 : Subscription)
    (hterm : isTerminal sub0.status = true) (id now : Nat) (t s1 : EngineState)
    (hr : releaseAfterExpiry id now t = .ok s1)
    (h : findSub t.subs id0 = some sub0) : findSub s1.subs id0 = some sub0 := by
  unfold releaseAfterExpiry at hr
  split at hr
  · cases hr
  next sub hf =>
    split at hr
    next hact =>
      have hne : id0 ≠ id := by
        intro hid
        subst hid
        rw [h] at hf
        injection hf with he
        subst he
        exact terminal_ne_active sub0.status hterm hact
      split at hr
      · simp only [Except.ok.injEq] at hr
        subst hr
        exact h
      · split at hr
        · simp only [Except.ok.injEq] at hr
          subst hr
          dsimp only
          rw [findSub_updateFirst_ne t.subs id id0 _ hne]
          exact h
        · simp only [Except.ok.injEq] at hr
          subst hr
          dsimp only
          rw [findSub_updateFirst_ne t.subs id id0 _ hne]
          exact h
    next hact => cases hr

theorem frozen_cancelAfterExpiry (id0 : Nat) (sub0 : Subscription)
    (hterm : isTerminal sub0.status = true) (id caller : Nat) (t s1 : EngineState)
    (hr : cancelAfterExpiry id caller t = .ok s1)
    (h : findSub t.subs id0 = some sub0) : findSub s1.subs id0 = some sub0 := by
  unfold cancelAfterExpiry at hr
  split at hr
  · cases hr
  next sub hf =>
    split at hr
    next hnt => cases hr
    next hnt =>
      split at hr
      · cases hr
      · simp only [Except.ok.injEq] at hr
        subst hr
        dsimp only
        by_cases hid : id0 = id
        · subst hid
          rw [h] at hf
          injection hf with he
          subst he
          exact absurd hterm hnt
        · rw [findSub_updateFirst_ne t.subs id id0 _ hid]
          exact h

theorem frozen_withdrawRaw (id0 : Nat) (sub0 : Subscription)
    (p : Nat) (tok : Bool) (s s1 : EngineState)
    (hr : withdrawProviderFundsRaw p tok s = .ok s1)
    (h : findSub s.subs id0 = some sub0) : findSub s1.subs id0 = some sub0 := by
  unfold withdrawProviderFundsRaw attemptTransfer at hr
  by_cases hz : provBal s.providerBalances p = 0
  · rw [if_pos hz] at hr
    simp only [Except.ok.injEq] at hr
    subst hr
    exact h
  · rw [if_neg hz] at hr
    cases tok with
    | false =>
        rw [if_neg (by simp)] at hr
        cases hr
    | true =>
        rw [if_pos rfl] at hr
        simp only [Except.ok.injEq] at hr
        subst hr
        exact h

theorem frozen_applyOps (id0 : Nat) (sub0 : Subscription)
    (hterm : isTerminal sub0.status = true) (ops : List Op) (s : EngineState)
    (h : findSub s.subs id0 = some sub0) :
    findSub (applyOps ops s).subs id0 = some sub0 :=
  applyOps_preserves (fun st => findSub st.subs id0 = some sub0)
    (applyOp_preserves _ (fun _ _ hs => hs)
      (fun u p a i d dep now st idr st1 hr hs => frozen_createRaw id0 sub0 u p a i d dep now st idr st1 hr hs)
      (fun id amount t t1 hr hs => frozen_topUpAfterExpiry id0 sub0 hterm id amount t t1 hr hs)
      (fun id now t t1 hr hs => frozen_releaseAfterExpiry id0 sub0 hterm id now t t1 hr hs)
      (fun id caller t t1 hr hs => frozen_cancelAfterExpiry id0 sub0 hterm id caller t t1 hr hs)
      (fun p tok st st1 hr hs => frozen_withdrawRaw id0 sub0 p tok st st1 hr hs)
      (fun now id st hs => frozen_applyLazyExpiry id0 sub0 hterm now id st hs))
    ops s h

/-! ### Evaluation helpers for the guarded entry points -/

theorem withLock_eval (f : EngineState → Except EscrowError EngineState)
    (s t : EngineState) (hl : s.locked = false)
    (hf : f { s with locked := true } = .ok t) :
    withLock f s = .ok { t with locked := false } := by
  unfold withLock
  rw [hl, if_neg Bool.false_ne_true, hf]

theorem withLock_eval_error (f : EngineState → Except EscrowError EngineState)
    (s : EngineState) (e : EscrowError) (hl : s.locked = false)
    (hf : f { s with locked := true } = .error e) :
    withLock f s = .error e := by
  unfold withLock
  rw [hl, if_neg Bool.false_ne_true, hf]

theorem state_locked_false_eta (s : EngineState) (hl : s.locked = false) :
    ({ s with locked := false }) = s := by
  cases s
  dsimp only at hl ⊢
  rw [hl]

theorem applyLazyExpiry_of_ne_pastDue (now id : Nat) (s : EngineState) (sub : Subscription)
    (hf : findSub s.subs id = some sub) (hnp : sub.status ≠ .PastDue) :
    applyLazyExpiry now id s = s := by
  unfold applyLazyExpiry
  rw [hf]
  exact if_neg (fun hc => hnp hc.1)

theorem applyLazyExpiry_of_within_grace (now id : Nat) (s : EngineState) (sub : Subscription)
    (hf : findSub s.subs id = some sub)
    (hgrace : now < sub.gracePeriodStart + s.graceDuration) :
    applyLazyExpiry now id s = s := by
  unfold applyLazyExpiry
  rw [hf]
  exact if_neg (fun hc => absurd hc.2 (by omega))

/-! ### The claims -/

/-- C1: fund conservation — for every finite sequence of operations applied to
the initially empty engine, after every single mutating operation the sum of
all subscription balances plus the sum of all provider balances plus the
accrued protocol fees equals the sum of all deposits and top-ups received
minus the sum of all refunds and withdrawals paid out (and payouts never
exceed receipts). -/
theorem C1_fund_conservation (g : Nat) (ops : List Op) :
    sumBal (applyOps ops (initState g)).subs +
      sumProv (applyOps ops (initState g)).providerBalances +
      (applyOps ops (initState g)).protocolAccrued =
      (applyOps ops (initState g)).totalIn - (applyOps ops (initState g)).totalOut ∧
    (applyOps ops (initState g)).totalOut ≤ (applyOps ops (initState g)).totalIn := by
  have h := conserved_applyOps ops (initState g) (conserved_init g)
  unfold conserved at h
  omega

/-- C2: terminal finality — once a subscription's status is terminal, topUp,
releasePayment and cancelSubscription against it all fail with InvalidState,
and its whole record (its balance in particular) never changes again under
any further sequence of operations. -/
theorem C2_terminal_finality (s : EngineState) (id : Nat) (sub : Subscription)
    (hf : findSub s.subs id = some sub) (hterm : isTerminal sub.status = true) :
    (s.locked = false →
      (∀ amount now, topUp id amount now s = .error .InvalidState) ∧
      (∀ now, releasePayment id now s = .error .InvalidState) ∧
      (∀ caller now, cancelSubscription id caller now s = .error .InvalidState)) ∧
    (∀ ops, findSub (applyOps ops s).subs id = some sub) := by
  constructor
  · intro hl
    have hfl : findSub ({ s with locked := true } : EngineState).subs id = some sub := hf
    refine ⟨?_, ?_, ?_⟩
    · intro amount now
      apply withLock_eval_error _ _ _ hl
      unfold topUpRaw
      rw [applyLazyExpiry_of_terminal now id _ sub hfl hterm]
      unfold topUpAfterExpiry
      rw [hfl]
      exact if_pos hterm
    · intro now
      apply withLock_eval_error _ _ _ hl
      unfold releasePaymentRaw
      rw [applyLazyExpiry_of_terminal now id _ sub hfl hterm]
      unfold releaseAfterExpiry
      rw [hfl]
      exact if_neg (terminal_ne_active sub.status hterm)
    · intro caller now
      apply withLock_eval_error _ _ _ hl
      unfold cancelSubscriptionRaw
      rw [applyLazyExpiry_of_terminal now id _ sub hfl hterm]
      unfold cancelAfterExpiry
      rw [hfl]
      exact if_pos hterm
  · intro ops
    exact frozen_applyOps id sub hterm ops s hf

/-- A cancelled subscription used as the concrete instance for C2. -/
def c2sub : Subscription :=
  { user := 1, provider := 2, amountPerInterval := 100, intervalSeconds := 60,
    durationIntervals := 0, balance := 0, paidIntervals := 3, nextPaymentTs := 240,
    status := .CancelledByUser, createdAt := 0, gracePeriodStart := 0 }

/-- A concrete engine state holding the cancelled subscription of C2. -/
def c2state : EngineState :=
  { subs := [(1, c2sub)], subscriptionCount := 1, providerBalances := [],
    protocolAccrued := 0, totalIn := 300, totalOut := 300,
    locked := false, graceDuration := 100 }

theorem C2_witness :
    topUp 1 5 0 c2state = .error .InvalidState ∧
    releasePayment 1 500 c2state = .error .InvalidState ∧
    cancelSubscription 1 1 500 c2state = .error .InvalidState ∧
    findSub (applyOps [Op.release 1 500, Op.topUp 1 7 900] c2state).subs 1 = some c2sub :=
  ⟨((C2_terminal_finality c2state 1 c2sub rfl rfl).1 rfl).1 5 0,
   ((C2_terminal_finality c2state 1 c2sub rfl rfl).1 rfl).2.1 500,
   ((C2_terminal_finality c2state 1 c2sub rfl rfl).1 rfl).2.2 1 500,
   (C2_terminal_finality c2state 1 c2sub rfl rfl).2 [Op.release 1 500, Op.topUp 1 7 900]⟩

/-- C3: idempotence of release — releasePayment on an Active subscription that
is not yet due (current time strictly before nextPaymentTs) is a no-op
success: it returns ok and leaves the whole engine state unchanged, so a
redundant second call in the same due window debits nothing. -/
theorem C3_release_not_due_noop (s : EngineState) (id now : Nat) (sub : Subscription)
    (hl : s.locked = false) (hf : findSub s.subs id = some sub)
    (hact : sub.status = .Active) (hdue : now < sub.nextPaymentTs) :
    releasePayment id now s = .ok s := by
  have hfl : findSub ({ s with locked := true } : EngineState).subs id = some sub := hf
  have hnp : sub.status ≠ SubscriptionStatus.PastDue := by
    rw [hact]
    exact fun hc => SubscriptionStatus.noConfusion hc
  have hraw : releasePaymentRaw id now { s with locked := true } = .ok { s with locked := true } := by
    unfold releasePaymentRaw
    rw [applyLazyExpiry_of_ne_pastDue now id _ sub hfl hnp]
    unfold releaseAfterExpiry
    rw [hfl]
    dsimp only
    rw [if_pos hact, if_pos hdue]
  have h2 := withLock_eval _ s _ hl hraw
  rw [state_locked_false_eta s hl] at h2
  exact h2

/-- An Active, not-yet-due subscription used as the concrete instance for C3. -/
def c3sub : Subscription :=
  { user := 1, provider := 2, amountPerInterval := 100, intervalSeconds := 60,
    durationIntervals := 0, balance := 500, paidIntervals := 0, nextPaymentTs := 60,
    status := .Active, createdAt := 0, gracePeriodStart := 0 }

/-- A concrete engine state holding the subscription of C3. -/
def c3state : EngineState :=
  { subs := [(1, c3sub)], subscriptionCount := 1, providerBalances := [],
    protocolAccrued := 0, totalIn := 500, totalOut := 0,
    locked := false, graceDuration := 100 }

theorem C3_witness : releasePayment 1 0 c3state = .ok c3state :=
  C3_release_not_due_noop c3state 1 0 c3sub rfl rfl rfl (by decide)

/-- C4: schedule fixedness — in every state reachable from the empty engine,
every registered subscription has nextPaymentTs equal to
createdAt + (paidIntervals + 1) * intervalSeconds; since paidIntervals counts
the successful releases, after N releases nextPaymentTs sits exactly N+1
intervals after creation, however late each release call was. -/
theorem C4_schedule_fixedness (g : Nat) (ops : List Op) (id : Nat) (sub : Subscription)
    (hf : findSub (applyOps ops (initState g)).subs id = some sub) :
    sub.nextPaymentTs = sub.createdAt + (sub.paidIntervals + 1) * sub.intervalSeconds :=
  (allSubsInv_applyOps ops (initState g) (allSubsInv_init g) id sub hf).1

/-- The subscription produced by the concrete creation of C4. -/
def c4res : Subscription :=
  { user := 1, provider := 2, amountPerInterval := 100, intervalSeconds := 60,
    durationIntervals := 0, balance := 100, paidIntervals := 0, nextPaymentTs := 60,
    status := .Active, createdAt := 0, gracePeriodStart := 0 }

theorem C4_witness :
    c4res.nextPaymentTs = c4res.createdAt + (c4res.paidIntervals + 1) * c4res.intervalSeconds :=
  C4_schedule_fixedness 7 [Op.create 1 2 100 60 0 100 0] 1 c4res (by rfl)

/-- C6: duration cap and indefinite subscriptions — in every reachable state,
a subscription with a finite durationIntervals has paidIntervals at most
durationIntervals and is Expired exactly when the cap is reached, while an
indefinite subscription (durationIntervals = 0) is never Expired. -/
theorem C6_duration_cap (g : Nat) (ops : List Op) (id : Nat) (sub : Subscription)
    (hf : findSub (applyOps ops (initState g)).subs id = some sub) :
    (sub.durationIntervals ≠ 0 →
      sub.paidIntervals ≤ sub.durationIntervals ∧
      (sub.paidIntervals = sub.durationIntervals → sub.status = .Expired)) ∧
    (sub.durationIntervals = 0 → sub.status ≠ .Expired) :=
  (allSubsInv_applyOps ops (initState g) (allSubsInv_init g) id sub hf).2

/-- The subscription produced by the concrete run of C6: created with a
duration cap of 2 and released once at its due time. -/
def c6res : Subscription :=
  { user := 1, provider := 2, amountPerInterval := 100, intervalSeconds := 60,
    durationIntervals := 2, balance := 200, paidIntervals := 1, nextPaymentTs := 120,
    status := .Active, createdAt := 0, gracePeriodStart := 0 }

theorem C6_witness :
    (c6res.durationIntervals ≠ 0 →
      c6res.paidIntervals ≤ c6res.durationIntervals ∧
      (c6res.paidIntervals = c6res.durationIntervals → c6res.status = .Expired)) ∧
    (c6res.durationIntervals = 0 → c6res.status ≠ .Expired) :=
  C6_duration_cap 7 [Op.create 1 2 100 60 2 300 0, Op.release 1 60] 1 c6res (by rfl)

/-- C5: reentrancy rejection — every mutating entry point is guarded by the
single process-wide lock: a call made while the lock is held fails with
ReentrancyDetected and performs no state mutation; a successful call leaves
the lock released; and any failing call leaves the state exactly as it was. -/
theorem C5_reentrancy_rejection (op : Op) (s : EngineState) :
    (s.locked = true → runOp op s = .error .ReentrancyDetected ∧ applyOp op s = s) ∧
    (∀ s1, runOp op s = .ok s1 → s1.locked = false) ∧
    (∀ e, runOp op s = .error e → applyOp op s = s) := by
  refine ⟨?_, ?_, ?_⟩
  · intro hl
    have hrun : runOp op s = .error .ReentrancyDetected := by
      cases op with
      | create u p a i d dep now =>
          have hc : createSubscription u p a i d dep now s = .error .ReentrancyDetected := by
            unfold createSubscription
            rw [if_pos hl]
          simp only [runOp, hc]
      | topUp id amount now => exact withLock_locked _ s hl
      | release id now => exact withLock_locked _ s hl
      | cancel id caller now => exact withLock_locked _ s hl
      | withdraw p tok => exact withLock_locked _ s hl
      | expire id now => exact withLock_locked (expireRaw id now) s hl
    refine ⟨hrun, ?_⟩
    unfold applyOp
    rw [hrun]
  · intro s1 hok
    cases op with
    | create u p a i d dep now =>
        cases hc : createSubscription u p a i d dep now s with
        | error e =>
            simp only [runOp, hc] at hok
            cases hok
        | ok pr =>
            obtain ⟨j, t2⟩ := pr
            simp only [runOp, hc, Except.ok.injEq] at hok
            subst hok
            obtain ⟨t, -, hs1⟩ := createSubscription_ok u p a i d dep now s j _ hc
            rw [hs1]
    | topUp id amount now =>
        have hok2 : withLock (topUpRaw id amount now) s = .ok s1 := hok
        obtain ⟨t, -, hs1⟩ := withLock_ok _ s s1 hok2
        rw [hs1]
    | release id now =>
        have hok2 : withLock (releasePaymentRaw id now) s = .ok s1 := hok
        obtain ⟨t, -, hs1⟩ := withLock_ok _ s s1 hok2
        rw [hs1]
    | cancel id caller now =>
        have hok2 : withLock (cancelSubscriptionRaw id caller now) s = .ok s1 := hok
        obtain ⟨t, -, hs1⟩ := withLock_ok _ s s1 hok2
        rw [hs1]
    | withdraw p tok =>
        have hok2 : withLock (withdrawProviderFundsRaw p tok) s = .ok s1 := hok
        obtain ⟨t, -, hs1⟩ := withLock_ok _ s s1 hok2
        rw [hs1]
    | expire id now =>
        have hok2 : withLock (expireRaw id now) s = .ok s1 := hok
        obtain ⟨t, -, hs1⟩ := withLock_ok _ s s1 hok2
        rw [hs1]
  · intro e herr
    unfold applyOp
    rw [herr]

/-- A concrete engine state whose reentrancy lock is held, for C5. -/
def c5state : EngineState :=
  { subs := [], subscriptionCount := 0, providerBalances := [],
    protocolAccrued := 0, totalIn := 0, totalOut := 0,
    locked := true, graceDuration := 100 }

theorem C5_witness :
    runOp (Op.topUp 1 5 0) c5state = .error .ReentrancyDetected ∧
    applyOp (Op.topUp 1 5 0) c5state = c5state :=
  (C5_reentrancy_rejection (Op.topUp 1 5 0) c5state).1 rfl

/-- C7: fee-split exactness — a successful paying release debits exactly
amountPerInterval from the subscription balance, credits the provider with
amountPerInterval minus the 2.5% protocol fee, accrues exactly that fee, and
fee plus provider share equals amountPerInterval, so no unit is created or
lost in the split. -/
theorem C7_fee_split (s : EngineState) (id now : Nat) (sub : Subscription)
    (hl : s.locked = false) (hf : findSub s.subs id = some sub)
    (hact : sub.status = .Active) (hdue : sub.nextPaymentTs ≤ now)
    (hbal : sub.amountPerInterval ≤ sub.balance) :
    ∃ s1 sub1,
      releasePayment id now s = .ok s1 ∧
      findSub s1.subs id = some sub1 ∧
      sub1.balance = sub.balance - sub.amountPerInterval ∧
      sub1.paidIntervals = sub.paidIntervals + 1 ∧
      provBal s1.providerBalances sub.provider =
        provBal s.providerBalances sub.provider +
          (sub.amountPerInterval - protocolFee sub.amountPerInterval) ∧
      s1.protocolAccrued = s.protocolAccrued + protocolFee sub.amountPerInterval ∧
      protocolFee sub.amountPerInterval +
        (sub.amountPerInterval - protocolFee sub.amountPerInterval) =
        sub.amountPerInterval := by
  have hfl : findSub ({ s with locked := true } : EngineState).subs id = some sub := hf
  have hnp : sub.status ≠ SubscriptionStatus.PastDue := by
    rw [hact]
    exact fun hc => SubscriptionStatus.noConfusion hc
  have hraw : releasePaymentRaw id now { s with locked := true } =
      .ok { subs := updateFirst s.subs id
              (fun sb => { sb with
                           balance := sb.balance - sub.amountPerInterval,
                           paidIntervals := sb.paidIntervals + 1,
                           nextPaymentTs := sb.nextPaymentTs + sb.intervalSeconds,
                           status :=
                             if sub.durationIntervals ≠ 0 ∧
                                 sub.paidIntervals + 1 = sub.durationIntervals then
                               SubscriptionStatus.Expired
                             else SubscriptionStatus.Active }),
            subscriptionCount := s.subscriptionCount,
            providerBalances := creditProv s.providerBalances sub.provider
              (sub.amountPerInterval - protocolFee sub.amountPerInterval),
            protocolAccrued := s.protocolAccrued + protocolFee sub.amountPerInterval,
            totalIn := s.totalIn, totalOut := s.totalOut,
            locked := true, graceDuration := s.graceDuration } := by
    unfold releasePaymentRaw
    rw [applyLazyExpiry_of_ne_pastDue now id _ sub hfl hnp]
    unfold releaseAfterExpiry
    rw [hfl]
    dsimp only
    rw [if_pos hact, if_neg (by omega : ¬ now < sub.nextPaymentTs),
      if_neg (by omega : ¬ sub.balance < sub.amountPerInterval)]
  have hok := withLock_eval _ s _ hl hraw
  refine ⟨_, { sub with
               balance := sub.balance - sub.amountPerInterval,
               paidIntervals := sub.paidIntervals + 1,
               nextPaymentTs := sub.nextPaymentTs + sub.intervalSeconds,
               status :=
                 if sub.durationIntervals ≠ 0 ∧
                     sub.paidIntervals + 1 = sub.durationIntervals then
                   SubscriptionStatus.Expired
                 else SubscriptionStatus.Active }, hok, ?_, rfl, rfl, ?_, rfl, ?_⟩
  · have hfind := findSub_updateFirst_self s.subs id
      (fun sb => { sb with
                   balance := sb.balance - sub.amountPerInterval,
                   paidIntervals := sb.paidIntervals + 1,
                   nextPaymentTs := sb.nextPaymentTs + sb.intervalSeconds,
                   status :=
                     if sub.durationIntervals ≠ 0 ∧
                         sub.paidIntervals + 1 = sub.durationIntervals then
                       SubscriptionStatus.Expired
                     else SubscriptionStatus.Active })
    rw [hf] at hfind
    simp only [Option.map_some'] at hfind
    exact hfind
  · exact provBal_creditProv_self s.providerBalances sub.provider _
  · have := protocolFee_le sub.amountPerInterval
    omega

/-- An Active, due, funded subscription used as the concrete instance of C7. -/
def c7sub : Subscription :=
  { user := 1, provider := 2, amountPerInterval := 1000, intervalSeconds := 60,
    durationIntervals := 0, balance := 5000, paidIntervals := 0, nextPaymentTs := 60,
    status := .Active, createdAt := 0, gracePeriodStart := 0 }

/-- A concrete engine state holding the subscription of C7. -/
def c7state : EngineState :=
  { subs := [(1, c7sub)], subscriptionCount := 1, providerBalances := [],
    protocolAccrued := 0, totalIn := 5000, totalOut := 0,
    locked := false, graceDuration := 100 }

theorem C7_witness :
    ∃ s1 sub1,
      releasePayment 1 60 c7state = .ok s1 ∧
      findSub s1.subs 1 = some sub1 ∧
      sub1.balance = c7sub.balance - c7sub.amountPerInterval ∧
      sub1.paidIntervals = c7sub.paidIntervals + 1 ∧
      provBal s1.providerBalances c7sub.provider =
        provBal c7state.providerBalances c7sub.provider +
          (c7sub.amountPerInterval - protocolFee c7sub.amountPerInterval) ∧
      s1.protocolAccrued = c7state.protocolAccrued + protocolFee c7sub.amountPerInterval ∧
      protocolFee c7sub.amountPerInterval +
        (c7sub.amountPerInterval - protocolFee c7sub.amountPerInterval) =
        c7sub.amountPerInterval :=
  C7_fee_split c7state 1 60 c7sub rfl rfl rfl (by decide) (by decide)

theorem withdrawRaw_zero (p : Nat) (tok : Bool) (w : EngineState)
    (hz : provBal w.providerBalances p = 0) :
    withdrawProviderFundsRaw p tok w = .ok w := by
  unfold withdrawProviderFundsRaw
  exact if_pos hz

theorem withdrawRaw_nonzero (p : Nat) (tok : Bool) (w : EngineState)
    (hz : provBal w.providerBalances p ≠ 0) :
    withdrawProviderFundsRaw p tok w =
      attemptTransfer tok (provBal w.providerBalances p)
        { w with providerBalances := zeroProv w.providerBalances p } := by
  unfold withdrawProviderFundsRaw
  exact if_neg hz

/-- C8: withdrawal zeroing and zero no-op — a provider withdrawal with a zero
accumulated balance is a no-op success; with a nonzero balance the
accumulator is zeroed before the external transfer is attempted (the state
handed to the transfer step already shows a zero balance); the call fails
with InsufficientFunds exactly when the transfer mechanism rejects the
payout; and after every successful call the provider's accumulated balance
is zero. -/
theorem C8_withdraw_zeroing (p : Nat) (tok : Bool) (s : EngineState)
    (hl : s.locked = false) :
    (provBal s.providerBalances p = 0 → withdrawProviderFunds p tok s = .ok s) ∧
    (provBal s.providerBalances p ≠ 0 → tok = false →
      withdrawProviderFunds p tok s = .error .InsufficientFunds) ∧
    (∀ s1, withdrawProviderFunds p tok s = .ok s1 → provBal s1.providerBalances p = 0) ∧
    (provBal s.providerBalances p ≠ 0 →
      withdrawProviderFundsRaw p tok { s with locked := true } =
        attemptTransfer tok (provBal s.providerBalances p)
          { s with providerBalances := zeroProv s.providerBalances p, locked := true } ∧
      provBal (zeroProv s.providerBalances p) p = 0) := by
  refine ⟨?_, ?_, ?_, ?_⟩
  · intro hz
    have hzl : provBal ({ s with locked := true } : EngineState).providerBalances p = 0 := hz
    have hraw := withdrawRaw_zero p tok _ hzl
    have h2 := withLock_eval _ s _ hl hraw
    rw [state_locked_false_eta s hl] at h2
    exact h2
  · intro hz htok
    subst htok
    have hzl : provBal ({ s with locked := true } : EngineState).providerBalances p ≠ 0 := hz
    have hraw := withdrawRaw_nonzero p false _ hzl
    have htr : attemptTransfer false
        (provBal ({ s with locked := true } : EngineState).providerBalances p)
        { ({ s with locked := true } : EngineState) with
          providerBalances := zeroProv ({ s with locked := true } : EngineState).providerBalances p } =
        .error .InsufficientFunds := by
      unfold attemptTransfer
      exact if_neg Bool.false_ne_true
    rw [htr] at hraw
    exact withLock_eval_error _ s _ hl hraw
  · intro s1 hok
    have hok2 : withLock (withdrawProviderFundsRaw p tok) s = .ok s1 := hok
    obtain ⟨t, hft, hs1⟩ := withLock_ok _ s s1 hok2
    subst hs1
    by_cases hz : provBal s.providerBalances p = 0
    · have hzl : provBal ({ s with locked := true } : EngineState).providerBalances p = 0 := hz
      rw [withdrawRaw_zero p tok _ hzl] at hft
      injection hft with he
      subst he
      exact hz
    · have hzl : provBal ({ s with locked := true } : EngineState).providerBalances p ≠ 0 := hz
      rw [withdrawRaw_nonzero p tok _ hzl] at hft
      unfold attemptTransfer at hft
      cases tok with
      | false =>
          rw [if_neg Bool.false_ne_true] at hft
          cases hft
      | true =>
          rw [if_pos rfl] at hft
          injection hft with he
          subst he
          exact provBal_zeroProv_self s.providerBalances p
  · intro hz
    have hzl : provBal ({ s with locked := true } : EngineState).providerBalances p ≠ 0 := hz
    exact ⟨withdrawRaw_nonzero p tok _ hzl, provBal_zeroProv_self s.providerBalances p⟩

/-- A concrete engine state with a provider balance of 975 for provider 2,
used as the instance of C8. -/
def c8state : EngineState :=
  { subs := [], subscriptionCount := 0, providerBalances := [(2, 975)],
    protocolAccrued := 25, totalIn := 1000, totalOut := 0,
    locked := false, graceDuration := 100 }

theorem C8_witness :
    withdrawProviderFunds 2 false c8state = .error .InsufficientFunds ∧
    withdrawProviderFunds 7 true c8state = .ok c8state ∧
    provBal (zeroProv c8state.providerBalances 2) 2 = 0 :=
  ⟨(C8_withdraw_zeroing 2 false c8state rfl).2.1 (by decide) rfl,
   (C8_withdraw_zeroing 7 true c8state rfl).1 rfl,
   ((C8_withdraw_zeroing 2 true c8state rfl).2.2.2 (by decide)).2⟩

/-- C9: top-up reactivation frame — a successful top-up on a PastDue
subscription (within its grace period) whose amount brings the balance to at
least amountPerInterval sets the status back to Active and changes only the
balance and status of the record: nextPaymentTs and every other field stay
as they were, and no provider balance or fee accrual moves. -/
theorem C9_topup_reactivation (s : EngineState) (id amount now : Nat) (sub : Subscription)
    (hl : s.locked = false) (hf : findSub s.subs id = some sub)
    (hpd : sub.status = .PastDue)
    (hgrace : now < sub.gracePeriodStart + s.graceDuration)
    (hamt : amount ≠ 0)
    (hcov : sub.amountPerInterval ≤ sub.balance + amount) :
    ∃ s1, topUp id amount now s = .ok s1 ∧
      findSub s1.subs id = some { sub with balance := sub.balance + amount, status := .Active } ∧
      s1.totalIn = s.totalIn + amount ∧
      s1.subscriptionCount = s.subscriptionCount ∧
      s1.providerBalances = s.providerBalances ∧
      s1.protocolAccrued = s.protocolAccrued ∧
      s1.totalOut = s.totalOut := by
  have hfl : findSub ({ s with locked := true } : EngineState).subs id = some sub := hf
  have hgl : now < sub.gracePeriodStart + ({ s with locked := true } : EngineState).graceDuration := hgrace
  have hnt : ¬ isTerminal sub.status = true := by
    rw [hpd]
    exact fun hcon => Bool.noConfusion hcon
  have hraw : topUpRaw id amount now { s with locked := true } =
      .ok { subs := updateFirst s.subs id
              (fun sb => { sb with
                           balance := sb.balance + amount,
                           status := SubscriptionStatus.Active }),
            subscriptionCount := s.subscriptionCount,
            providerBalances := s.providerBalances,
            protocolAccrued := s.protocolAccrued,
            totalIn := s.totalIn + amount, totalOut := s.totalOut,
            locked := true, graceDuration := s.graceDuration } := by
    unfold topUpRaw
    rw [applyLazyExpiry_of_within_grace now id _ sub hfl hgl]
    unfold topUpAfterExpiry
    rw [hfl]
    dsimp only
    rw [if_neg hnt, if_neg hamt, if_pos ⟨hpd, hcov⟩]
  have hok := withLock_eval _ s _ hl hraw
  refine ⟨_, hok, ?_, rfl, rfl, rfl, rfl, rfl⟩
  have hfind := findSub_updateFirst_self s.subs id
    (fun sb => { sb with
                 balance := sb.balance + amount,
                 status := SubscriptionStatus.Active })
  rw [hf] at hfind
  simp only [Option.map_some'] at hfind
  exact hfind

/-- A PastDue subscription within its grace period, the instance of C9. -/
def c9sub : Subscription :=
  { user := 1, provider := 2, amountPerInterval := 100, intervalSeconds := 60,
    durationIntervals := 0, balance := 40, paidIntervals := 1, nextPaymentTs := 120,
    status := .PastDue, createdAt := 0, gracePeriodStart := 70 }

/-- A concrete engine state holding the subscription of C9. -/
def c9state : EngineState :=
  { subs := [(1, c9sub)], subscriptionCount := 1, providerBalances := [],
    protocolAccrued := 0, totalIn := 140, totalOut := 0,
    locked := false, graceDuration := 1000 }

theorem C9_witness :
    ∃ s1, topUp 1 60 80 c9state = .ok s1 ∧
      findSub s1.subs 1 = some { c9sub with
                                 balance := c9sub.balance + 60,
                                 status := .Active } ∧
      s1.totalIn = c9state.totalIn + 60 ∧
      s1.subscriptionCount = c9state.subscriptionCount ∧
      s1.providerBalances = c9state.providerBalances ∧
      s1.protocolAccrued = c9state.protocolAccrued ∧
      s1.totalOut = c9state.totalOut :=
  C9_topup_reactivation c9state 1 60 80 c9sub rfl rfl rfl (by decide) (by decide) (by decide)

/-- C10: consecutive id allocation — in every state reachable from the empty
engine, an id resolves to a record exactly when it lies between 1 and
subscriptionCount (so the keeper can enumerate ids 1 through
getSubscriptionCount()), and every successful creation returns an id equal
to the new subscriptionCount, which is the old count plus one (so the
creation client can read its new id off getSubscriptionCount()). -/
theorem C10_consecutive_ids (g : Nat) (ops : List Op) :
    (∀ i, (findSub (applyOps ops (initState g)).subs i).isSome = true ↔
      (1 ≤ i ∧ i ≤ (applyOps ops (initState g)).subscriptionCount)) ∧
    (∀ u p a intv d dep now s idr s1,
      createSubscription u p a intv d dep now s = .ok (idr, s1) →
      idr = s1.subscriptionCount ∧ s1.subscriptionCount = s.subscriptionCount + 1) := by
  constructor
  · exact keyInv_applyOps ops (initState g) (keyInv_init g)
  · intro u p a intv d dep now s idr s1 hok
    obtain ⟨t, hraw, hs1⟩ := createSubscription_ok u p a intv d dep now s idr s1 hok
    subst hs1
    unfold createSubscriptionRaw at hraw
    split at hraw
    · cases hraw
    · simp only [Except.ok.injEq, Prod.mk.injEq] at hraw
      obtain ⟨hid, hst⟩ := hraw
      subst hst
      exact ⟨hid.symm, rfl⟩

/-- The engine state after the one concrete creation of the C10 instance. -/
def c10res : EngineState :=
  { subs := [(1, { user := 1, provider := 2, amountPerInterval := 100,
                   intervalSeconds := 60, durationIntervals := 0, balance := 100,
                   paidIntervals := 0, nextPaymentTs := 60, status := .Active,
                   createdAt := 0, gracePeriodStart := 0 })],
    subscriptionCount := 1, providerBalances := [], protocolAccrued := 0,
    totalIn := 100, totalOut := 0, locked := false, graceDuration := 3 }

theorem C10_witness :
    ((findSub (applyOps [Op.create 1 2 100 60 0 100 0] (initState 3)).subs 1).isSome = true ↔
      (1 ≤ 1 ∧ 1 ≤ (applyOps [Op.create 1 2 100 60 0 100 0] (initState 3)).subscriptionCount)) ∧
    (1 = c10res.subscriptionCount ∧
      c10res.subscriptionCount = (initState 3).subscriptionCount + 1) :=
  ⟨(C10_consecutive_ids 3 [Op.create 1 2 100 60 0 100 0]).1 1,
   (C10_consecutive_ids 3 [Op.create 1 2 100 60 0 100 0]).2 1 2 100 60 0 100 0
     (initState 3) 1 c10res (by rfl)⟩

end StreamPay
